import Mathlib

set_option maxHeartbeats 1000000

set_option maxRecDepth 4000

/-! Shallow embedding of news_intelligence.py: the query-generation cache
(create_cache_key, generate_search_strategy), the article search with URL
deduplication (search_news), and the synthesis post-processing
(synthesize_news, format_urls_as_links).  Python strings are modelled as
`List Char`; external collaborators (the MD5 digest, the Anthropic call, the
NewsAPI fetch, Python's eval) are explicit function arguments. -/

/-- Characters of a Python string. -/
abbrev LChar := List Char

/-- Python str.lower(): per-character lowercasing. -/
def pyLower (s : LChar) : LChar := s.map Char.toLower

/-- Python str.strip family: drop characters satisfying p from both ends. -/
def pyStripP (p : Char → Bool) (s : LChar) : LChar :=
  ((s.dropWhile p).reverse.dropWhile p).reverse

/-- Python str.strip() with no arguments: strip whitespace from both ends. -/
def pyStrip (s : LChar) : LChar := pyStripP Char.isWhitespace s

/-- Python str.strip(chars): strip any of the given characters from both ends. -/
def pyStripSet (cs : LChar) (s : LChar) : LChar :=
  pyStripP (fun c => decide (c ∈ cs)) s

/-- Decimal digit character for d < 10. -/
def digitChar (d : Nat) : Char := Char.ofNat (48 + d)

/-- Fuelled decimal expansion; the fuel bounds the recursion depth and any
fuel of at least n suffices. -/
def natDigitsGo : Nat → Nat → LChar
  | 0, n => [digitChar n]
  | fuel + 1, n =>
    if n < 10 then [digitChar n]
    else natDigitsGo fuel (n / 10) ++ [digitChar (n % 10)]

/-- Decimal representation of a natural number, as Python str(int) renders
a nonnegative integer. -/
def natDigits (n : Nat) : LChar := natDigitsGo n n

/-- Numeric value of a decimal digit character. -/
def charDigitVal (c : Char) : Nat := c.toNat - 48

/-- Value of a string of decimal digits, most significant first. -/
def valOfDigits (s : LChar) : Nat := s.foldl (fun a c => 10 * a + charDigitVal c) 0

/-- Normalization done by create_cache_key: user_query.lower().strip(). -/
def normalizeQuery (q : LChar) : LChar := pyStrip (pyLower q)

/-- The string handed to the digest by create_cache_key:
f"{normalized_query}|max_queries:{max_queries}". -/
def cacheInput (user_query : LChar) (max_queries : Nat) : LChar :=
  normalizeQuery user_query ++ "|max_queries:".data ++ natDigits max_queries

/-- create_cache_key from news_intelligence.py: normalizes the query, builds
the cache_input string and hashes it; md5hex stands for the external
hashlib.md5(...).hexdigest() digest.  Returns (cache_key, normalized_query). -/
def create_cache_key (md5hex : LChar → LChar) (user_query : LChar)
    (max_queries : Nat) : LChar × LChar :=
  (md5hex (cacheInput user_query max_queries), normalizeQuery user_query)

/-- Python str.replace worker (all occurrences, left to right,
non-overlapping); the fuel bounds the scan and the string length suffices. -/
def pyReplaceGo (old new : LChar) : Nat → LChar → LChar
  | _, [] => []
  | 0, s => s
  | fuel + 1, c :: rest =>
    if old ≠ [] ∧ old.isPrefixOf (c :: rest) then
      new ++ pyReplaceGo old new fuel ((c :: rest).drop old.length)
    else
      c :: pyReplaceGo old new fuel rest

/-- Python s.replace(old, new). -/
def pyReplace (old new s : LChar) : LChar := pyReplaceGo old new s.length s

/-- Python s.split(sep) for a single separator character. -/
def splitOnChar (sep : Char) : LChar → List LChar
  | [] => [[]]
  | c :: rest =>
    match splitOnChar sep rest with
    | [] => if c = sep then [[], []] else [[c]]
    | l :: ls => if c = sep then [] :: l :: ls else (c :: l) :: ls

/-- Python s.find(c) for a character known to be present: index of the first
occurrence (returns the length when absent; the call sites test membership
first). -/
def pyFind (c : Char) : LChar → Nat
  | [] => 0
  | x :: xs => if x = c then 0 else pyFind c xs + 1

/-- A cache entry as generate_search_strategy stores it in
search_query_cache.json; the success path writes claude_response and leaves
error/fallback absent (modelled none/false), the failure path writes
claude_response None, the error text and fallback True. -/
structure CacheEntry where
  original_query : LChar
  normalized_query : LChar
  max_queries : Nat
  search_queries : List LChar
  created_at : LChar
  claude_response : Option LChar
  error : Option LChar
  fallback : Bool
deriving DecidableEq

/-- The in-memory cache: a Python dict from cache_key to entry, in insertion
order. -/
abbrev Cache := List (LChar × CacheEntry)

/-- Python dict lookup cache[k]. -/
def dictLookup (k : LChar) : Cache → Option CacheEntry
  | [] => none
  | (k', v) :: rest => if k' = k then some v else dictLookup k rest

/-- Python dict assignment cache[k] = v: overwrite in place if present,
append otherwise. -/
def dictInsert (k : LChar) (v : CacheEntry) : Cache → Cache
  | [] => [(k, v)]
  | (k', v') :: rest =>
    if k' = k then (k, v) :: rest else (k', v') :: dictInsert k v rest

/-- The single fallback query of the except-branch:
user_query.replace(" news", "").replace(" headlines", ""). -/
def fallbackQueries (user_query : LChar) : List LChar :=
  [pyReplace " headlines".data [] (pyReplace " news".data [] user_query)]

/-- The line-based parse of the else-branch: every line of the response with
non-whitespace content, stripped of the characters space, -, double quote
and single quote at both ends. -/
def lineQueries (response_text : LChar) : List LChar :=
  ((splitOnChar '\n' response_text).filter (fun l => pyStrip l ≠ [])).map
    (fun l => pyStripSet [' ', '-', '"', '\''] l)

/-- The slice response_text[start:end] handed to eval, with
start = response_text.find('[') and end = response_text.find(']') + 1. -/
def listSlice (response_text : LChar) : LChar :=
  (response_text.take (pyFind ']' response_text + 1)).drop
    (pyFind '[' response_text)

/-- String-literal scanner of the modelled eval: characters up to the
closing quote (no escape handling), with the remainder. -/
def scanStr (q : Char) : Nat → LChar → Option (LChar × LChar)
  | _, [] => none
  | 0, _ => none
  | fuel + 1, c :: rest =>
    if c = q then some ([], rest)
    else
      match scanStr q fuel rest with
      | some (str, rem) => some (c :: str, rem)
      | none => none

/-- Item loop of the modelled eval, after the opening bracket: quoted string
literals separated by commas (trailing comma allowed) up to the closing
bracket; returns the items and the remainder after the bracket. -/
def evalItemsGo : Nat → LChar → Except LChar (List LChar × LChar)
  | 0, _ => .error "SyntaxError".data
  | fuel + 1, s =>
    match s.dropWhile Char.isWhitespace with
    | [] => .error "SyntaxError".data
    | c :: rest =>
      if c = ']' then .ok ([], rest)
      else if c = '\'' ∨ c = '"' then
        match scanStr c rest.length rest with
        | none => .error "SyntaxError".data
        | some (str, rem) =>
          match rem.dropWhile Char.isWhitespace with
          | [] => .error "SyntaxError".data
          | d :: rem₂ =>
            if d = ',' then
              match evalItemsGo fuel rem₂ with
              | .ok (items, rem₃) => .ok (str :: items, rem₃)
              | .error e => .error e
            else if d = ']' then .ok ([str], rem₂)
            else .error "SyntaxError".data
      else .error "SyntaxError".data

/-- Modelled semantics of the Python eval call on the extracted slice: it
evaluates a list literal whose elements are single- or double-quoted string
literals (the only well-typed outcome the surrounding code expects) and
raises — returns an error — on any other input. -/
def evalPyList (s : LChar) : Except LChar (List LChar) :=
  match s.dropWhile Char.isWhitespace with
  | '[' :: rest =>
    match evalItemsGo rest.length rest with
    | .ok (items, rem) =>
      if rem.dropWhile Char.isWhitespace = [] then .ok items
      else .error "SyntaxError".data
    | .error e => .error e
  | _ => .error "SyntaxError".data

/-- Shallow embedding of generate_search_strategy from news_intelligence.py.
The externals are explicit: md5hex the digest used by create_cache_key,
evalFn the Python eval applied to the bracket slice, cache the dict loaded
by load_query_cache, resp the outcome of the Anthropic messages.create call
(raised exception text, or the response text before .strip()), now the
datetime.now().isoformat() string.  Returns the queries and the cache after
any insertion (save_query_cache only persists it). -/
def generate_search_strategy (md5hex : LChar → LChar)
    (evalFn : LChar → Except LChar (List LChar)) (cache : Cache)
    (resp : Except LChar LChar) (now : LChar) (user_query : LChar)
    (max_queries : Nat) : List LChar × Cache :=
  let cache_key := (create_cache_key md5hex user_query max_queries).1
  let normalized_query := (create_cache_key md5hex user_query max_queries).2
  match dictLookup cache_key cache with
  | some cached_entry => (cached_entry.search_queries, cache)
  | none =>
    match resp with
    | .ok raw =>
      let response_text := pyStrip raw
      if response_text.contains '[' = true ∧ response_text.contains ']' = true then
        match evalFn (listSlice response_text) with
        | .ok search_queries =>
          let entry : CacheEntry :=
            { original_query := user_query, normalized_query := normalized_query,
              max_queries := max_queries, search_queries := search_queries,
              created_at := now, claude_response := some response_text,
              error := none, fallback := false }
          (search_queries, dictInsert cache_key entry cache)
        | .error e =>
          let search_queries := fallbackQueries user_query
          let entry : CacheEntry :=
            { original_query := user_query, normalized_query := normalized_query,
              max_queries := max_queries, search_queries := search_queries,
              created_at := now, claude_response := none,
              error := some e, fallback := true }
          (search_queries, dictInsert cache_key entry cache)
      else
        let search_queries := (lineQueries response_text).take max_queries
        let entry : CacheEntry :=
          { original_query := user_query, normalized_query := normalized_query,
            max_queries := max_queries, search_queries := search_queries,
            created_at := now, claude_response := some response_text,
            error := none, fallback := false }
        (search_queries, dictInsert cache_key entry cache)
    | .error e =>
      let search_queries := fallbackQueries user_query
      let entry : CacheEntry :=
        { original_query := user_query, normalized_query := normalized_query,
          max_queries := max_queries, search_queries := search_queries,
          created_at := now, claude_response := none,
          error := some e, fallback := true }
      (search_queries, dictInsert cache_key entry cache)

/-- A sample stored entry used by concrete witnesses. -/
def sampleEntry : CacheEntry :=
  { original_query := "ai".data, normalized_query := "ai".data,
    max_queries := 5, search_queries := ["artificial intelligence".data],
    created_at := "2025-01-01".data, claude_response := none,
    error := none, fallback := false }

/-- The fields of a NewsAPI article dict that news_intelligence.py reads;
a missing key is none (article.get returns None), and source_name stands
for article.get('source', dict()).get('name'). -/
structure Article where
  url : Option LChar
  title : Option LChar
  description : Option LChar
  source_name : Option LChar
  publishedAt : Option LChar
  content : Option LChar
  search_query : Option LChar
deriving DecidableEq

/-- Outcome of one NewsAPI request in search_news: a 200 response with its
article list, a non-200 status, or a raised exception. -/
inductive FetchOutcome where
  | success (articles : List Article)
  | httpError (status : Nat)
  | failure (message : LChar)
deriving DecidableEq

/-- article['search_query'] = query, the tagging done for every returned
article. -/
def tagQuery (q : LChar) (a : Article) : Article := { a with search_query := some q }

/-- The per-query loop of search_news: a successful response extends
all_articles with its tagged articles; a non-200 status or a raised
exception is logged and skipped and the loop continues. -/
def collectArticles (fetch : LChar → FetchOutcome) : List LChar → List Article
  | [] => []
  | q :: qs =>
    (match fetch q with
     | .success arts => arts.map (tagQuery q)
     | .httpError _ => []
     | .failure _ => []) ++ collectArticles fetch qs

/-- The deduplication loop of search_news: seen_urls starts empty, an
article is kept iff article.get('url') is truthy (present and non-empty)
and not yet seen, in which case its url joins seen_urls. -/
def dedupByUrl (seen : List LChar) : List Article → List Article
  | [] => []
  | a :: rest =>
    match a.url with
    | some u =>
      if u ≠ [] ∧ u ∉ seen then a :: dedupByUrl (u :: seen) rest
      else dedupByUrl seen rest
    | none => dedupByUrl seen rest

/-- search_news from news_intelligence.py: run every query against the
fetch collaborator, concatenate the tagged successes, deduplicate by URL. -/
def search_news (fetch : LChar → FetchOutcome) (queries : List LChar) : List Article :=
  dedupByUrl [] (collectArticles fetch queries)

/-- The URLs of a list of articles, in order, skipping absent ones. -/
def urlsOf (l : List Article) : List LChar := l.filterMap (fun a => a.url)

/-- Sample articles for the search witnesses. -/
def artA : Article :=
  { url := some "http://a".data, title := some "A1".data, description := none,
    source_name := none, publishedAt := none, content := none, search_query := none }

/-- Second sample article, distinct url. -/
def artB : Article :=
  { url := some "http://b".data, title := some "B1".data, description := none,
    source_name := none, publishedAt := none, content := none, search_query := none }

/-- Third sample article, repeating the first url. -/
def artA2 : Article :=
  { url := some "http://a".data, title := some "A2".data, description := none,
    source_name := none, publishedAt := none, content := none, search_query := none }

/-- Sample fetch collaborator: query q1 yields articles with urls A then B,
query q2 yields a duplicate of url A. -/
def fetchW (q : LChar) : FetchOutcome :=
  if q = "q1".data then .success [artA, artB] else .success [artA2]

/-- Sample fetch collaborator whose second query raises. -/
def fetchW9 (q : LChar) : FetchOutcome :=
  if q = "qb".data then .failure "ConnectionError".data
  else if q = "qa".data then .success [artA]
  else .success [artB]

/-- A url-less sample article. -/
def artNoUrl : Article :=
  { url := none, title := some "N".data, description := none,
    source_name := none, publishedAt := none, content := none, search_query := none }

/-- Sample fetch collaborator returning one url-less and one normal article. -/
def fetchW10 (_q : LChar) : FetchOutcome := .success [artNoUrl, artA]

/-- Boolean prefix test on character lists. -/
def isPre : LChar → LChar → Bool
  | [], _ => true
  | _ :: _, [] => false
  | a :: as, b :: bs => a == b && isPre as bs

/-- The regex character class [^\s\)]: anything but whitespace and ')'. -/
def classChar (c : Char) : Bool := !c.isWhitespace && !(c == ')')

/-- The negative lookahead (?![\)\]]) judged at the character that would
follow the match (none at end of text). -/
def aheadOk : Option Char → Bool
  | none => true
  | some c => !(c == ')') && !(c == ']')

/-- Backtracking of the greedy [^\s\)]+ from the right: given the reversed
class-character run and the character just after it, the largest number of
kept characters whose following character passes the lookahead. -/
def pickKRev : LChar → Option Char → Option Nat
  | [], _ => none
  | b :: bs, next => if aheadOk next then some (bs.length + 1) else pickKRev bs (some b)

/-- Largest accepted match length within the greedy class run. -/
def pickK (body : LChar) (next : Option Char) : Option Nat :=
  pickKRev body.reverse next

/-- The protocol alternative https?:// at the start of s, with its length. -/
def protoAt (s : LChar) : Option Nat :=
  if isPre "https://".data s then some 8
  else if isPre "http://".data s then some 7
  else none

/-- One attempt of the url pattern of format_urls_as_links at the start of
s, prev being the character before s in the whole text: the negative
lookbehind (?<![\(\[]), the protocol, the greedy class run and the
lookahead with its backtracking.  Returns the matched url and the
remainder of the text. -/
def tryMatch (prev : Option Char) (s : LChar) : Option (LChar × LChar) :=
  if prev = some '(' ∨ prev = some '[' then none
  else
    match protoAt s with
    | none => none
    | some plen =>
      match pickK ((s.drop plen).takeWhile classChar)
          ((s.drop plen).drop ((s.drop plen).takeWhile classChar).length).head? with
      | none => none
      | some k => some (s.take (plen + k), s.drop (plen + k))

/-- replace_url from format_urls_as_links: the first article whose url
equals the match labels it with its title (defaulted to 'Read More' when the
key is missing, truncated to 50 characters); otherwise the label is
'Read More'. -/
def replace_url (articles : List Article) (url : LChar) : LChar :=
  match articles.find? (fun a => decide (a.url = some url)) with
  | some a =>
    "[".data ++ (a.title.getD "Read More".data).take 50 ++ "](".data ++ url ++ ")".data
  | none => "[Read More](".data ++ url ++ ")".data

/-- The re.sub scan of format_urls_as_links: find the leftmost match,
replace it, continue right after it in the original text.  The fuel bounds
the number of scanning steps; the text length suffices since every step
consumes at least one character. -/
def urlSubGo (articles : List Article) : Nat → Option Char → LChar → LChar
  | 0, _, s => s
  | fuel + 1, prev, s =>
    match s with
    | [] => []
    | c :: rest =>
      match tryMatch prev (c :: rest) with
      | some (u, rem) =>
        replace_url articles u ++ urlSubGo articles fuel (some (u.getLastD c)) rem
      | none => c :: urlSubGo articles fuel (some c) rest

/-- format_urls_as_links from news_intelligence.py: substitute every match
of the url pattern in the summary text. -/
def format_urls_as_links (summary_text : LChar) (articles : List Article) : LChar :=
  urlSubGo articles summary_text.length none summary_text

/-- Whether pat occurs as a contiguous substring of s. -/
def hasSub (pat : LChar) : LChar → Bool
  | [] => isPre pat []
  | c :: rest => isPre pat (c :: rest) || hasSub pat rest

/-- The character preceding the position right after pre, when the scan
entered pre preceded by prev. -/
def lastPrev : LChar → Option Char → Option Char
  | [], prev => prev
  | c :: rest, _ => lastPrev rest (some c)

/-- The fixed sentinel of synthesize_news for an empty article list. -/
def noArticlesMsg : LChar := "No recent news articles found for your query.".data

/-- The fixed sentinel of synthesize_news when the model call raises. -/
def synthErrorMsg : LChar := "Error processing news articles.".data

/-- One article block of the synthesis prompt (the per-article f-string of
synthesize_news; the indentation of the Python literal is not reproduced). -/
def articleSummary (i : Nat) (a : Article) : LChar :=
  "Article ".data ++ natDigits (i + 1) ++ ":\n".data
  ++ "Headline: ".data ++ a.title.getD "No title".data ++ "\n".data
  ++ "URL: ".data ++ a.url.getD "No URL".data ++ "\n".data
  ++ "Description: ".data ++ a.description.getD "No description".data ++ "\n".data
  ++ "Source: ".data ++ a.source_name.getD "Unknown".data ++ "\n".data
  ++ "Published: ".data ++ a.publishedAt.getD "Unknown".data ++ "\n".data
  ++ "Content Preview: ".data ++ (a.content.getD "No content".data).take 200

/-- The articles_text block of the synthesis prompt: the first 25 articles,
joined by blank lines. -/
def buildArticlesText (articles : List Article) : LChar :=
  List.intercalate "\n\n".data
    ((articles.take 25).enum.map (fun p => articleSummary p.1 p.2))

/-- The system prompt of synthesize_news (indentation of the Python literal
not reproduced). -/
def synthSystemPrompt (max_headlines : Nat) : LChar :=
  "You are a news analyst. Synthesize the provided articles into a clean summary with clickable links.\nRequirements:\n- Return the top ".data
  ++ natDigits max_headlines
  ++ " most important/relevant headlines\n- For each headline, provide exactly 2 sentences of summary\n- Include the article URL as a clickable link after each summary\n- Include specific numbers, percentages, dollar amounts when mentioned\n- Focus on the most newsworthy and recent information\n- Use this EXACT format:\n**[Headline]**\n[2-sentence summary with numbers if available]\n[Article URL]\nDo not include any other text, explanations, or meta-commentary.\nMake sure to include the URL for each story you summarize.".data

/-- The user prompt of synthesize_news (indentation of the Python literal
not reproduced). -/
def synthUserPrompt (articles : List Article) (original_query : LChar)
    (max_headlines : Nat) : LChar :=
  "Original request: \"".data ++ original_query
  ++ "\"\nHere are the news articles to synthesize:\n".data
  ++ buildArticlesText articles
  ++ "\nPlease provide the top ".data ++ natDigits max_headlines
  ++ " headlines with summaries and URLs as specified.".data

/-- Shallow embedding of synthesize_news from news_intelligence.py; llm
maps the system and user prompts to the outcome of the Anthropic call
(raised exception text, or the response text before .strip()). -/
def synthesize_news (llm : LChar → LChar → Except LChar LChar)
    (articles : List Article) (original_query : LChar)
    (max_headlines : Nat) : LChar :=
  if articles = [] then noArticlesMsg
  else
    match llm (synthSystemPrompt max_headlines)
        (synthUserPrompt articles original_query max_headlines) with
    | .ok raw => format_urls_as_links (pyStrip raw) (articles.take max_headlines)
    | .error _e => synthErrorMsg

/-- Sample article for the link post-processing claims. -/
def artX : Article :=
  { url := some "http://x.com".data, title := some "T".data, description := none,
    source_name := none, publishedAt := none, content := none, search_query := none }

theorem natDigitsGo_eq (f₁ f₂ n : Nat) (h₁ : n ≤ f₁) (h₂ : n ≤ f₂) :
    natDigitsGo f₁ n = natDigitsGo f₂ n := by
  induction f₁ generalizing f₂ n with
  | zero =>
    have hn : n = 0 := by omega
    subst hn
    cases f₂ <;> simp [natDigitsGo]
  | succ f ih =>
    cases f₂ with
    | zero =>
      have hn : n = 0 := by omega
      subst hn
      simp [natDigitsGo]
    | succ f₂' =>
      by_cases hn : n < 10
      · simp [natDigitsGo, hn]
      · have hlt : n / 10 < n := Nat.div_lt_self (by omega) (by omega)
        have hd₁ : n / 10 ≤ f := by omega
        have hd₂ : n / 10 ≤ f₂' := by omega
        simp only [natDigitsGo, if_neg hn]
        rw [ih f₂' (n / 10) hd₁ hd₂]

theorem digitChar_isDigit (d : Nat) (h : d < 10) : (digitChar d).isDigit = true := by
  interval_cases d <;> decide

theorem charDigitVal_digitChar (d : Nat) (h : d < 10) :
    charDigitVal (digitChar d) = d := by
  interval_cases d <;> decide

theorem natDigitsGo_all_digit (f n : Nat) (h : n ≤ f) :
    ∀ c ∈ natDigitsGo f n, c.isDigit = true := by
  induction f generalizing n with
  | zero =>
    have hn : n = 0 := by omega
    subst hn
    intro c hc
    simp [natDigitsGo] at hc
    subst hc
    exact digitChar_isDigit 0 (by omega)
  | succ f ih =>
    intro c hc
    by_cases hn : n < 10
    · simp [natDigitsGo, hn] at hc
      subst hc
      exact digitChar_isDigit n hn
    · have hlt : n / 10 < n := Nat.div_lt_self (by omega) (by omega)
      simp only [natDigitsGo, if_neg hn, List.mem_append, List.mem_singleton] at hc
      rcases hc with hc | hc
      · exact ih (n / 10) (by omega) c hc
      · subst hc
        exact digitChar_isDigit (n % 10) (Nat.mod_lt _ (by omega))

theorem natDigitsGo_ne_nil (f n : Nat) : natDigitsGo f n ≠ [] := by
  cases f with
  | zero => simp [natDigitsGo]
  | succ f =>
    by_cases hn : n < 10 <;> simp [natDigitsGo, hn]

theorem valOfDigits_append_singleton (l : LChar) (c : Char) :
    valOfDigits (l ++ [c]) = 10 * valOfDigits l + charDigitVal c := by
  simp [valOfDigits, List.foldl_append]

theorem valOfDigits_natDigitsGo (f n : Nat) (h : n ≤ f) :
    valOfDigits (natDigitsGo f n) = n := by
  induction f generalizing n with
  | zero =>
    have hn : n = 0 := by omega
    subst hn
    simp [natDigitsGo, valOfDigits, charDigitVal, digitChar]
  | succ f ih =>
    by_cases hn : n < 10
    · simp [natDigitsGo, hn, valOfDigits]
      simpa [valOfDigits] using charDigitVal_digitChar n hn
    · have hlt : n / 10 < n := Nat.div_lt_self (by omega) (by omega)
      simp only [natDigitsGo, if_neg hn]
      rw [valOfDigits_append_singleton, ih (n / 10) (by omega),
        charDigitVal_digitChar (n % 10) (Nat.mod_lt _ (by omega))]
      omega

theorem natDigits_inj (m₁ m₂ : Nat) (h : natDigits m₁ = natDigits m₂) : m₁ = m₂ := by
  have h₁ : valOfDigits (natDigits m₁) = m₁ := valOfDigits_natDigitsGo m₁ m₁ (le_refl _)
  have h₂ : valOfDigits (natDigits m₂) = m₂ := valOfDigits_natDigitsGo m₂ m₂ (le_refl _)
  rw [← h₁, ← h₂, h]

theorem takeWhile_append_all {p : Char → Bool} (l r : LChar)
    (h : ∀ c ∈ l, p c = true) :
    (l ++ r).takeWhile p = l ++ r.takeWhile p := by
  induction l with
  | nil => simp
  | cons c cs ih =>
    have hc : p c = true := h c (by simp)
    simp only [List.cons_append, List.takeWhile_cons, hc, if_true]
    rw [ih (fun x hx => h x (by simp [hx]))]

theorem dropWhile_append_all {p : Char → Bool} (l r : LChar)
    (h : ∀ c ∈ l, p c = true) :
    (l ++ r).dropWhile p = r.dropWhile p := by
  induction l with
  | nil => simp
  | cons c cs ih =>
    have hc : p c = true := h c (by simp)
    simp only [List.cons_append, List.dropWhile_cons, hc, if_true]
    exact ih (fun x hx => h x (by simp [hx]))

theorem takeWhile_eq_nil_of_head {p : Char → Bool} (r : LChar)
    (h : ∀ c, r.head? = some c → p c = false) :
    r.takeWhile p = [] := by
  cases r with
  | nil => simp
  | cons c cs =>
    have := h c rfl
    simp [List.takeWhile_cons, this]

theorem split_unique {p : Char → Bool} (l₁ l₂ r₁ r₂ : LChar)
    (hl₁ : ∀ c ∈ l₁, p c = true) (hl₂ : ∀ c ∈ l₂, p c = true)
    (hr₁ : ∀ c, r₁.head? = some c → p c = false)
    (hr₂ : ∀ c, r₂.head? = some c → p c = false)
    (h : l₁ ++ r₁ = l₂ ++ r₂) : l₁ = l₂ ∧ r₁ = r₂ := by
  have ht : l₁ = l₂ := by
    have e₁ : (l₁ ++ r₁).takeWhile p = l₁ := by
      rw [takeWhile_append_all l₁ r₁ hl₁, takeWhile_eq_nil_of_head r₁ hr₁,
        List.append_nil]
    have e₂ : (l₂ ++ r₂).takeWhile p = l₂ := by
      rw [takeWhile_append_all l₂ r₂ hl₂, takeWhile_eq_nil_of_head r₂ hr₂,
        List.append_nil]
    rw [← e₁, ← e₂, h]
  refine ⟨ht, ?_⟩
  subst ht
  exact List.append_cancel_left h

theorem natDigits_reverse_all_digit (m : Nat) :
    ∀ c ∈ (natDigits m).reverse, Char.isDigit c = true := by
  intro c hc
  rw [List.mem_reverse] at hc
  exact natDigitsGo_all_digit m m (le_refl _) c hc

/-- The digest input determines the normalized query and the count: the
separator's last character is a colon and the count's digits contain none. -/
theorem cacheInput_inj (q₁ q₂ : LChar) (m₁ m₂ : Nat)
    (h : cacheInput q₁ m₁ = cacheInput q₂ m₂) :
    normalizeQuery q₁ = normalizeQuery q₂ ∧ m₁ = m₂ := by
  have hrev : (natDigits m₁).reverse ++
      (("|max_queries:".data).reverse ++ (normalizeQuery q₁).reverse) =
      (natDigits m₂).reverse ++
      (("|max_queries:".data).reverse ++ (normalizeQuery q₂).reverse) := by
    have := congrArg List.reverse h
    simpa [cacheInput, List.reverse_append, List.append_assoc] using this
  have hsep : ("|max_queries:".data).reverse = ':' :: ":seireuq_xam|".data.tail := by
    decide
  have hhead : ∀ q : LChar, ∀ c,
      (("|max_queries:".data).reverse ++ q).head? = some c → Char.isDigit c = false := by
    intro q c hc
    rw [hsep] at hc
    simp at hc
    subst hc
    decide
  have := split_unique ((natDigits m₁).reverse) ((natDigits m₂).reverse)
    (("|max_queries:".data).reverse ++ (normalizeQuery q₁).reverse)
    (("|max_queries:".data).reverse ++ (normalizeQuery q₂).reverse)
    (natDigits_reverse_all_digit m₁) (natDigits_reverse_all_digit m₂)
    (hhead _) (hhead _) hrev
  obtain ⟨hd, hr⟩ := this
  have hm : m₁ = m₂ := by
    apply natDigits_inj
    have := congrArg List.reverse hd
    simpa using this
  have hq : normalizeQuery q₁ = normalizeQuery q₂ := by
    have := List.append_cancel_left hr
    have := congrArg List.reverse this
    simpa using this
  exact ⟨hq, hm⟩

/-- C1: create_cache_key is deterministic and stable: the key is a pure
function of the lowercased, whitespace-trimmed topic and the count, so two
calls with identical arguments (or arguments agreeing after normalization)
return the identical key; and two calls whose normalized topics differ, or
whose counts differ, can only produce the same key by exhibiting a collision
of the digest function on two distinct input strings. -/
theorem create_cache_key_correct (md5hex : LChar → LChar) (q₁ q₂ : LChar)
    (m₁ m₂ : Nat) :
    (normalizeQuery q₁ = normalizeQuery q₂ → m₁ = m₂ →
      create_cache_key md5hex q₁ m₁ = create_cache_key md5hex q₂ m₂)
    ∧ ((normalizeQuery q₁ ≠ normalizeQuery q₂ ∨ m₁ ≠ m₂) →
      (create_cache_key md5hex q₁ m₁).1 = (create_cache_key md5hex q₂ m₂).1 →
      ∃ s₁ s₂ : LChar, s₁ ≠ s₂ ∧ md5hex s₁ = md5hex s₂) := by
  constructor
  · intro hq hm
    subst hm
    simp [create_cache_key, cacheInput, hq]
  · intro hne hkey
    refine ⟨cacheInput q₁ m₁, cacheInput q₂ m₂, ?_, hkey⟩
    intro heq
    rcases cacheInput_inj q₁ q₂ m₁ m₂ heq with ⟨hq, hm⟩
    rcases hne with h | h
    · exact h hq
    · exact h hm

/-- Witness for C1 at concrete inputs: "  Tech News " and "tech news"
normalize identically so the keys agree; with a constant digest, two
differently-normalized topics yielding the same key exhibit a collision. -/
theorem create_cache_key_correct_witness :
    create_cache_key (fun s => s) "  Tech News ".data 5 =
      create_cache_key (fun s => s) "tech news".data 5
    ∧ ∃ s₁ s₂ : LChar, s₁ ≠ s₂ ∧
      (fun _ : LChar => ([] : LChar)) s₁ = (fun _ : LChar => ([] : LChar)) s₂ := by
  constructor
  · exact (create_cache_key_correct (fun s => s) "  Tech News ".data
      "tech news".data 5 5).1 (by decide) rfl
  · exact (create_cache_key_correct (fun _ => []) "a".data "b".data 5 5).2
      (Or.inl (by decide)) rfl

theorem dictLookup_dictInsert (k : LChar) (v : CacheEntry) (c : Cache) :
    dictLookup k (dictInsert k v c) = some v := by
  induction c with
  | nil => simp [dictInsert, dictLookup]
  | cons p rest ih =>
    obtain ⟨k', v'⟩ := p
    by_cases hk : k' = k
    · simp [dictInsert, dictLookup, hk]
    · simp [dictInsert, dictLookup, hk, ih]

theorem gen_hit (md5hex : LChar → LChar) (evalFn : LChar → Except LChar (List LChar))
    (cache : Cache) (resp : Except LChar LChar) (now q : LChar) (m : Nat)
    (ent : CacheEntry)
    (h : dictLookup (create_cache_key md5hex q m).1 cache = some ent) :
    generate_search_strategy md5hex evalFn cache resp now q m =
      (ent.search_queries, cache) := by
  simp only [generate_search_strategy, h]

theorem gen_error_branch (md5hex : LChar → LChar)
    (evalFn : LChar → Except LChar (List LChar)) (cache : Cache) (now q : LChar)
    (m : Nat) (e : LChar)
    (h : dictLookup (create_cache_key md5hex q m).1 cache = none) :
    generate_search_strategy md5hex evalFn cache (.error e) now q m =
      (fallbackQueries q,
        dictInsert (create_cache_key md5hex q m).1
          { original_query := q,
            normalized_query := (create_cache_key md5hex q m).2,
            max_queries := m, search_queries := fallbackQueries q,
            created_at := now, claude_response := none,
            error := some e, fallback := true } cache) := by
  simp only [generate_search_strategy, h]

theorem gen_ok_eval_error (md5hex : LChar → LChar)
    (evalFn : LChar → Except LChar (List LChar)) (cache : Cache)
    (now q raw : LChar) (m : Nat) (e : LChar)
    (h : dictLookup (create_cache_key md5hex q m).1 cache = none)
    (hbr : (pyStrip raw).contains '[' = true ∧ (pyStrip raw).contains ']' = true)
    (hev : evalFn (listSlice (pyStrip raw)) = .error e) :
    generate_search_strategy md5hex evalFn cache (.ok raw) now q m =
      (fallbackQueries q,
        dictInsert (create_cache_key md5hex q m).1
          { original_query := q,
            normalized_query := (create_cache_key md5hex q m).2,
            max_queries := m, search_queries := fallbackQueries q,
            created_at := now, claude_response := none,
            error := some e, fallback := true } cache) := by
  simp only [generate_search_strategy, h, hbr.1, hbr.2, and_self, if_true, hev]

theorem gen_ok_eval_ok (md5hex : LChar → LChar)
    (evalFn : LChar → Except LChar (List LChar)) (cache : Cache)
    (now q raw : LChar) (m : Nat) (qs : List LChar)
    (h : dictLookup (create_cache_key md5hex q m).1 cache = none)
    (hbr : (pyStrip raw).contains '[' = true ∧ (pyStrip raw).contains ']' = true)
    (hev : evalFn (listSlice (pyStrip raw)) = .ok qs) :
    generate_search_strategy md5hex evalFn cache (.ok raw) now q m =
      (qs,
        dictInsert (create_cache_key md5hex q m).1
          { original_query := q,
            normalized_query := (create_cache_key md5hex q m).2,
            max_queries := m, search_queries := qs,
            created_at := now, claude_response := some (pyStrip raw),
            error := none, fallback := false } cache) := by
  simp only [generate_search_strategy, h, hbr.1, hbr.2, and_self, if_true, hev]

theorem gen_ok_lines (md5hex : LChar → LChar)
    (evalFn : LChar → Except LChar (List LChar)) (cache : Cache)
    (now q raw : LChar) (m : Nat)
    (h : dictLookup (create_cache_key md5hex q m).1 cache = none)
    (hbr : ¬((pyStrip raw).contains '[' = true ∧ (pyStrip raw).contains ']' = true)) :
    generate_search_strategy md5hex evalFn cache (.ok raw) now q m =
      ((lineQueries (pyStrip raw)).take m,
        dictInsert (create_cache_key md5hex q m).1
          { original_query := q,
            normalized_query := (create_cache_key md5hex q m).2,
            max_queries := m, search_queries := (lineQueries (pyStrip raw)).take m,
            created_at := now, claude_response := some (pyStrip raw),
            error := none, fallback := false } cache) := by
  simp only [generate_search_strategy, h, if_neg hbr]

theorem gen_miss_insert (md5hex : LChar → LChar)
    (evalFn : LChar → Except LChar (List LChar)) (cache : Cache)
    (resp : Except LChar LChar) (now q : LChar) (m : Nat)
    (h : dictLookup (create_cache_key md5hex q m).1 cache = none) :
    ∃ ent : CacheEntry,
      generate_search_strategy md5hex evalFn cache resp now q m =
        (ent.search_queries, dictInsert (create_cache_key md5hex q m).1 ent cache) := by
  match resp with
  | .error e =>
    exact ⟨{ original_query := q, normalized_query := (create_cache_key md5hex q m).2,
             max_queries := m, search_queries := fallbackQueries q, created_at := now,
             claude_response := none, error := some e, fallback := true },
           gen_error_branch md5hex evalFn cache now q m e h⟩
  | .ok raw =>
    by_cases hbr : (pyStrip raw).contains '[' = true ∧ (pyStrip raw).contains ']' = true
    · match hev : evalFn (listSlice (pyStrip raw)) with
      | .ok qs =>
        exact ⟨{ original_query := q, normalized_query := (create_cache_key md5hex q m).2,
                 max_queries := m, search_queries := qs, created_at := now,
                 claude_response := some (pyStrip raw), error := none, fallback := false },
               gen_ok_eval_ok md5hex evalFn cache now q raw m qs h hbr hev⟩
      | .error e =>
        exact ⟨{ original_query := q, normalized_query := (create_cache_key md5hex q m).2,
                 max_queries := m, search_queries := fallbackQueries q, created_at := now,
                 claude_response := none, error := some e, fallback := true },
               gen_ok_eval_error md5hex evalFn cache now q raw m e h hbr hev⟩
    · exact ⟨{ original_query := q, normalized_query := (create_cache_key md5hex q m).2,
               max_queries := m, search_queries := (lineQueries (pyStrip raw)).take m,
               created_at := now, claude_response := some (pyStrip raw),
               error := none, fallback := false },
             gen_ok_lines md5hex evalFn cache now q raw m h hbr⟩

/-- C2 counterexample: with an empty cache and the model answering the text
"[]" (a response containing a bracketed list), the success path evaluates the
empty list literal and generate_search_strategy returns the empty sequence —
the claimed non-emptiness fails on the successful-generation path. -/
theorem generate_nonempty_cex :
    (generate_search_strategy (fun s => s) evalPyList [] (.ok "[]".data)
      "2025-01-01".data "ai".data 5).1 = [] := by
  decide

/-- C2 (amended): the returned sequence is guaranteed non-empty only on the
single-query fallback paths (model call raised, or bracket slice failed to
evaluate), where it is exactly the one fallback entry; on a cache hit the
stored queries are returned verbatim, and on successful generation the parsed
list is returned verbatim — either of which may be empty. -/
theorem generate_nonempty_amended (md5hex : LChar → LChar)
    (evalFn : LChar → Except LChar (List LChar)) (cache : Cache)
    (now q : LChar) (m : Nat) :
    (∀ e, dictLookup (create_cache_key md5hex q m).1 cache = none →
      (generate_search_strategy md5hex evalFn cache (.error e) now q m).1 =
        fallbackQueries q ∧ fallbackQueries q ≠ [])
    ∧ (∀ raw e, dictLookup (create_cache_key md5hex q m).1 cache = none →
      (pyStrip raw).contains '[' = true → (pyStrip raw).contains ']' = true →
      evalFn (listSlice (pyStrip raw)) = .error e →
      (generate_search_strategy md5hex evalFn cache (.ok raw) now q m).1 =
        fallbackQueries q ∧ fallbackQueries q ≠ [])
    ∧ (∀ ent resp, dictLookup (create_cache_key md5hex q m).1 cache = some ent →
      (generate_search_strategy md5hex evalFn cache resp now q m).1 =
        ent.search_queries) := by
  refine ⟨?_, ?_, ?_⟩
  · intro e h
    rw [gen_error_branch md5hex evalFn cache now q m e h]
    exact ⟨rfl, by simp [fallbackQueries]⟩
  · intro raw e h hb₁ hb₂ hev
    rw [gen_ok_eval_error md5hex evalFn cache now q raw m e h ⟨hb₁, hb₂⟩ hev]
    exact ⟨rfl, by simp [fallbackQueries]⟩
  · intro ent resp h
    rw [gen_hit md5hex evalFn cache resp now q m ent h]

/-- Witness for the C2 amendment: a concrete failing model call on an empty
cache returns exactly the fallback query list, which is non-empty. -/
theorem generate_nonempty_amended_witness :
    (generate_search_strategy (fun s => s) evalPyList [] (.error "boom".data)
      "2025-01-01".data "ai news".data 5).1 = fallbackQueries "ai news".data
    ∧ fallbackQueries "ai news".data ≠ [] :=
  (generate_nonempty_amended (fun s => s) evalPyList [] "2025-01-01".data
    "ai news".data 5).1 "boom".data rfl

/-- C3: cache entries are immutable once written.  On a hit the stored
queries are returned verbatim and the cache is left exactly as it was (so a
second generation request under an already-present key performs no insert
and the first stored entry survives alone); and any miss inserts one entry
whose queries are the returned ones, after which every later request for the
same key returns that entry verbatim and leaves the cache unchanged. -/
theorem generate_cache_hit_immutable (md5hex : LChar → LChar)
    (evalFn : LChar → Except LChar (List LChar)) (cache : Cache)
    (resp : Except LChar LChar) (now q : LChar) (m : Nat) :
    (∀ ent, dictLookup (create_cache_key md5hex q m).1 cache = some ent →
      generate_search_strategy md5hex evalFn cache resp now q m =
        (ent.search_queries, cache))
    ∧ (dictLookup (create_cache_key md5hex q m).1 cache = none →
      ∃ ent : CacheEntry,
        generate_search_strategy md5hex evalFn cache resp now q m =
          (ent.search_queries, dictInsert (create_cache_key md5hex q m).1 ent cache)
        ∧ ∀ resp₂ now₂, generate_search_strategy md5hex evalFn
            (dictInsert (create_cache_key md5hex q m).1 ent cache) resp₂ now₂ q m =
            (ent.search_queries, dictInsert (create_cache_key md5hex q m).1 ent cache)) := by
  constructor
  · intro ent h
    exact gen_hit md5hex evalFn cache resp now q m ent h
  · intro h
    obtain ⟨ent, hent⟩ := gen_miss_insert md5hex evalFn cache resp now q m h
    refine ⟨ent, hent, ?_⟩
    intro resp₂ now₂
    exact gen_hit md5hex evalFn _ resp₂ now₂ q m ent
      (dictLookup_dictInsert _ ent cache)

/-- Witness for C3: with a cache already holding the key of topic "ai", the
request returns the stored queries and the cache is untouched. -/
theorem generate_cache_hit_immutable_witness :
    generate_search_strategy (fun s => s) evalPyList
      [((create_cache_key (fun s => s) "ai".data 5).1, sampleEntry)]
      (.error "boom".data) "2025-06-01".data "ai".data 5 =
      (sampleEntry.search_queries,
        [((create_cache_key (fun s => s) "ai".data 5).1, sampleEntry)]) :=
  (generate_cache_hit_immutable (fun s => s) evalPyList
    [((create_cache_key (fun s => s) "ai".data 5).1, sampleEntry)]
    (.error "boom".data) "2025-06-01".data "ai".data 5).1 sampleEntry (by decide)

/-- C4 counterexample: the model text "] [" contains both bracket
characters but no recognizable bracketed list (the slice from the first '['
to the first ']' is empty, so eval raises).  The code then takes the
single-query fallback for topic "abc" directly — the line-based parser,
which would have produced the line "] [", is bypassed. -/
theorem generate_bracket_cex :
    (generate_search_strategy (fun s => s) evalPyList [] (.ok "] [".data)
      "2025-01-01".data "abc".data 5).1 = ["abc".data]
    ∧ (lineQueries (pyStrip "] [".data)).take 5 = ["] [".data]
    ∧ ["abc".data] ≠ [("] [".data : LChar)] := by
  refine ⟨by decide, by decide, by decide⟩

/-- C4 (amended): the line-based fallback parser handles a response exactly
when the stripped text lacks an opening or a closing bracket character; when
both characters are present the slice between the first '[' and the first
']' is evaluated, and if that evaluation fails the single-query fallback is
used directly, without the line-based parser.  The single-query fallback is
otherwise reached only when the model call itself fails. -/
theorem generate_parse_branching (md5hex : LChar → LChar)
    (evalFn : LChar → Except LChar (List LChar)) (cache : Cache)
    (now q raw : LChar) (m : Nat)
    (hmiss : dictLookup (create_cache_key md5hex q m).1 cache = none) :
    (¬((pyStrip raw).contains '[' = true ∧ (pyStrip raw).contains ']' = true) →
      (generate_search_strategy md5hex evalFn cache (.ok raw) now q m).1 =
        (lineQueries (pyStrip raw)).take m)
    ∧ (∀ e, (pyStrip raw).contains '[' = true → (pyStrip raw).contains ']' = true →
      evalFn (listSlice (pyStrip raw)) = .error e →
      (generate_search_strategy md5hex evalFn cache (.ok raw) now q m).1 =
        fallbackQueries q)
    ∧ (∀ qs, (pyStrip raw).contains '[' = true → (pyStrip raw).contains ']' = true →
      evalFn (listSlice (pyStrip raw)) = .ok qs →
      (generate_search_strategy md5hex evalFn cache (.ok raw) now q m).1 = qs) := by
  refine ⟨?_, ?_, ?_⟩
  · intro hbr
    rw [gen_ok_lines md5hex evalFn cache now q raw m hmiss hbr]
  · intro e hb₁ hb₂ hev
    rw [gen_ok_eval_error md5hex evalFn cache now q raw m e hmiss ⟨hb₁, hb₂⟩ hev]
  · intro qs hb₁ hb₂ hev
    rw [gen_ok_eval_ok md5hex evalFn cache now q raw m qs hmiss ⟨hb₁, hb₂⟩ hev]

/-- Witness for the C4 amendment at concrete inputs: a bracketless two-line
response goes through the line parser; a response whose bracket slice fails
to evaluate falls directly to the single fallback query. -/
theorem generate_parse_branching_witness :
    (generate_search_strategy (fun s => s) evalPyList [] (.ok "alpha\nbeta".data)
      "2025-01-01".data "t".data 5).1 =
      (lineQueries (pyStrip "alpha\nbeta".data)).take 5
    ∧ (generate_search_strategy (fun s => s) evalPyList [] (.ok "] [".data)
      "2025-01-01".data "t".data 5).1 = fallbackQueries "t".data := by
  constructor
  · exact (generate_parse_branching (fun s => s) evalPyList [] "2025-01-01".data
      "t".data "alpha\nbeta".data 5 rfl).1 (by decide)
  · exact (generate_parse_branching (fun s => s) evalPyList [] "2025-01-01".data
      "t".data "] [".data 5 rfl).2.1 "SyntaxError".data (by decide) (by decide)
      (by rfl)

/-- C5: when the model call raises, or the bracket slice fails to evaluate,
generate_search_strategy returns the single query obtained from the topic by
deleting the substrings " news" and " headlines", and it caches an entry
under the topic's key whose queries are that fallback, whose fallback flag
is set and whose error field records the failure text; every later request
for the same topic and count then hits that entry and is not retried. -/
theorem generate_failure_fallback (md5hex : LChar → LChar)
    (evalFn : LChar → Except LChar (List LChar)) (cache : Cache)
    (now q : LChar) (m : Nat) (e : LChar) (resp : Except LChar LChar)
    (hmiss : dictLookup (create_cache_key md5hex q m).1 cache = none)
    (hfail : resp = .error e ∨ ∃ raw, resp = .ok raw ∧
      ((pyStrip raw).contains '[' = true ∧ (pyStrip raw).contains ']' = true) ∧
      evalFn (listSlice (pyStrip raw)) = .error e) :
    ∃ ent : CacheEntry,
      generate_search_strategy md5hex evalFn cache resp now q m =
        (fallbackQueries q, dictInsert (create_cache_key md5hex q m).1 ent cache)
      ∧ ent.search_queries = fallbackQueries q
      ∧ ent.fallback = true
      ∧ ent.error = some e
      ∧ ∀ resp₂ now₂, generate_search_strategy md5hex evalFn
          (dictInsert (create_cache_key md5hex q m).1 ent cache) resp₂ now₂ q m =
          (fallbackQueries q, dictInsert (create_cache_key md5hex q m).1 ent cache) := by
  have hnext : ∀ ent : CacheEntry, ent.search_queries = fallbackQueries q →
      ∀ resp₂ now₂, generate_search_strategy md5hex evalFn
        (dictInsert (create_cache_key md5hex q m).1 ent cache) resp₂ now₂ q m =
        (fallbackQueries q, dictInsert (create_cache_key md5hex q m).1 ent cache) := by
    intro ent hsq resp₂ now₂
    rw [gen_hit md5hex evalFn _ resp₂ now₂ q m ent (dictLookup_dictInsert _ ent cache),
      hsq]
  rcases hfail with rfl | ⟨raw, rfl, hbr, hev⟩
  · exact ⟨_, gen_error_branch md5hex evalFn cache now q m e hmiss, rfl, rfl, rfl,
      hnext _ rfl⟩
  · exact ⟨_, gen_ok_eval_error md5hex evalFn cache now q raw m e hmiss hbr hev,
      rfl, rfl, rfl, hnext _ rfl⟩

/-- Witness for C5 at the spec's own example: topic "xyz news" with a forced
collaborator failure yields exactly the query list containing "xyz". -/
theorem generate_failure_fallback_witness :
    (generate_search_strategy (fun s => s) evalPyList [] (.error "boom".data)
      "2025-01-01".data "xyz news".data 5).1 = ["xyz".data] := by
  obtain ⟨ent, heq, -, -, -, -⟩ := generate_failure_fallback (fun s => s)
    evalPyList [] "2025-01-01".data "xyz news".data 5 "boom".data
    (.error "boom".data) rfl (Or.inl rfl)
  rw [heq]
  show fallbackQueries "xyz news".data = ["xyz".data]
  decide

theorem dedupByUrl_cons_some (seen : List LChar) (u : LChar) (rest : List Article)
    (a : Article) (ha : a.url = some u) :
    dedupByUrl seen (a :: rest) =
      if u ≠ [] ∧ u ∉ seen then a :: dedupByUrl (u :: seen) rest
      else dedupByUrl seen rest := by
  simp [dedupByUrl, ha]

theorem dedupByUrl_cons_none (seen : List LChar) (rest : List Article)
    (a : Article) (ha : a.url = none) :
    dedupByUrl seen (a :: rest) = dedupByUrl seen rest := by
  simp [dedupByUrl, ha]

theorem dedupByUrl_sublist (l : List Article) (seen : List LChar) :
    List.Sublist (dedupByUrl seen l) l := by
  induction l generalizing seen with
  | nil => simp [dedupByUrl]
  | cons a rest ih =>
    rcases ha : a.url with - | u
    · rw [dedupByUrl_cons_none seen rest a ha]
      exact List.Sublist.cons a (ih seen)
    · rw [dedupByUrl_cons_some seen u rest a ha]
      by_cases hc : u ≠ [] ∧ u ∉ seen
      · rw [if_pos hc]
        exact List.Sublist.cons₂ a (ih (u :: seen))
      · rw [if_neg hc]
        exact List.Sublist.cons a (ih seen)

theorem dedupByUrl_truthy (l : List Article) (seen : List LChar) :
    ∀ b ∈ dedupByUrl seen l, ∃ u, b.url = some u ∧ u ≠ [] ∧ u ∉ seen := by
  induction l generalizing seen with
  | nil => simp [dedupByUrl]
  | cons a rest ih =>
    intro b hb
    rcases ha : a.url with - | u
    · rw [dedupByUrl_cons_none seen rest a ha] at hb
      exact ih seen b hb
    · rw [dedupByUrl_cons_some seen u rest a ha] at hb
      by_cases hc : u ≠ [] ∧ u ∉ seen
      · rw [if_pos hc] at hb
        rcases List.mem_cons.mp hb with rfl | hb
        · exact ⟨u, ha, hc.1, hc.2⟩
        · obtain ⟨v, hv, hne, hns⟩ := ih (u :: seen) b hb
          exact ⟨v, hv, hne, fun hmem => hns (List.mem_cons_of_mem u hmem)⟩
      · rw [if_neg hc] at hb
        exact ih seen b hb

theorem dedupByUrl_nodup (l : List Article) (seen : List LChar) :
    (urlsOf (dedupByUrl seen l)).Nodup := by
  induction l generalizing seen with
  | nil => simp [dedupByUrl, urlsOf]
  | cons a rest ih =>
    rcases ha : a.url with - | u
    · rw [dedupByUrl_cons_none seen rest a ha]
      exact ih seen
    · rw [dedupByUrl_cons_some seen u rest a ha]
      by_cases hc : u ≠ [] ∧ u ∉ seen
      · rw [if_pos hc]
        have hnodup := ih (u :: seen)
        have hnotmem : u ∉ urlsOf (dedupByUrl (u :: seen) rest) := by
          intro hmem
          obtain ⟨b, hb, hbu⟩ := List.mem_filterMap.mp hmem
          obtain ⟨v, hv, -, hns⟩ := dedupByUrl_truthy rest (u :: seen) b hb
          rw [hv] at hbu
          cases hbu
          exact hns (List.mem_cons_self u seen)
        simpa [urlsOf, ha] using And.intro hnotmem hnodup
      · rw [if_neg hc]
        exact ih seen

theorem dedupByUrl_first_kept (l : List Article) (seen : List LChar) (u : LChar)
    (b : Article) (hne : u ≠ []) (hns : u ∉ seen)
    (hfind : List.find? (fun x => decide (x.url = some u)) l = some b) :
    b ∈ dedupByUrl seen l := by
  induction l generalizing seen with
  | nil => simp at hfind
  | cons a rest ih =>
    by_cases ha : a.url = some u
    · rw [List.find?_cons_of_pos _ (by simpa using ha)] at hfind
      cases hfind
      rw [dedupByUrl_cons_some seen u rest b ha, if_pos (And.intro hne hns)]
      exact List.mem_cons_self _ _
    · rw [List.find?_cons_of_neg _ (by simpa using ha)] at hfind
      rcases hu : a.url with - | v
      · rw [dedupByUrl_cons_none seen rest a hu]
        exact ih seen hns hfind
      · rw [dedupByUrl_cons_some seen v rest a hu]
        by_cases hc : v ≠ [] ∧ v ∉ seen
        · rw [if_pos hc]
          have huv : u ≠ v := by
            intro h
            exact ha (h ▸ hu)
          exact List.mem_cons_of_mem a
            (ih (v :: seen) (by simp [huv, hns]) hfind)
        · rw [if_neg hc]
          exact ih seen hns hfind

/-- C6: search_news returns the concatenation of all fetched (tagged)
articles deduplicated by url — the result is a subsequence of the
concatenation (relative order preserved), its urls are pairwise distinct,
the first occurrence of every non-empty url is kept, and on the concrete
pattern of the claim (urls A, B, A in that order) the result is exactly the
first two articles in order. -/
theorem search_news_dedup (fetch : LChar → FetchOutcome) (queries : List LChar) :
    List.Sublist (search_news fetch queries) (collectArticles fetch queries)
    ∧ (urlsOf (search_news fetch queries)).Nodup
    ∧ (∀ (u : LChar) (b : Article), u ≠ [] →
        List.find? (fun x => decide (x.url = some u))
          (collectArticles fetch queries) = some b →
        b ∈ search_news fetch queries)
    ∧ (∀ (a₁ a₂ a₃ : Article) (A B : LChar),
        collectArticles fetch queries = [a₁, a₂, a₃] →
        a₁.url = some A → a₂.url = some B → a₃.url = some A →
        A ≠ [] → B ≠ [] → A ≠ B →
        search_news fetch queries = [a₁, a₂]) := by
  refine ⟨dedupByUrl_sublist _ _, dedupByUrl_nodup _ _, ?_, ?_⟩
  · intro u b hne hfind
    exact dedupByUrl_first_kept _ [] u b hne (by simp) hfind
  · intro a₁ a₂ a₃ A B hcol h₁ h₂ h₃ hA hB hAB
    have hBA : B ≠ A := Ne.symm hAB
    simp [search_news, hcol, dedupByUrl, h₁, h₂, h₃, hA, hB, hAB, hBA]

/-- Witness for C6: across the two queries the urls arrive as A, B, A and
search_news returns exactly the first A article and the B article, in
order. -/
theorem search_news_dedup_witness :
    search_news fetchW ["q1".data, "q2".data] =
      [tagQuery "q1".data artA, tagQuery "q1".data artB] :=
  (search_news_dedup fetchW ["q1".data, "q2".data]).2.2.2
    (tagQuery "q1".data artA) (tagQuery "q1".data artB) (tagQuery "q2".data artA2)
    "http://a".data "http://b".data (by decide) (by decide) (by decide)
    (by decide) (by decide) (by decide) (by decide)

/-- C9: a failing individual query (raised exception or non-200 status) is
skipped and the remaining queries still contribute: with three queries of
which the second alone fails, the result is the deduplication of the tagged
articles of queries one and three. -/
theorem search_news_partial_failure (fetch : LChar → FetchOutcome)
    (q₁ q₂ q₃ : LChar) (l₁ l₃ : List Article)
    (h₁ : fetch q₁ = .success l₁)
    (h₂ : (∃ msg, fetch q₂ = .failure msg) ∨ (∃ code, fetch q₂ = .httpError code))
    (h₃ : fetch q₃ = .success l₃) :
    search_news fetch [q₁, q₂, q₃] =
      dedupByUrl [] (l₁.map (tagQuery q₁) ++ l₃.map (tagQuery q₃)) := by
  rcases h₂ with ⟨msg, h₂⟩ | ⟨code, h₂⟩ <;>
    simp [search_news, collectArticles, h₁, h₂, h₃]

/-- Witness for C9: query qb of [qa, qb, qc] raises, and the result is the
deduplicated tagged articles of qa and qc. -/
theorem search_news_partial_failure_witness :
    search_news fetchW9 ["qa".data, "qb".data, "qc".data] =
      dedupByUrl [] ([artA].map (tagQuery "qa".data) ++ [artB].map (tagQuery "qc".data)) :=
  search_news_partial_failure fetchW9 "qa".data "qb".data "qc".data [artA] [artB]
    (by decide) (Or.inl ⟨"ConnectionError".data, by decide⟩) (by decide)

/-- C10: the deduplication loop keeps only articles whose url is present
and non-empty; an article whose url field is absent or empty is silently
dropped from the result even if no other article shares it. -/
theorem search_news_drops_urlless (fetch : LChar → FetchOutcome)
    (queries : List LChar) :
    (∀ a ∈ search_news fetch queries, ∃ u, a.url = some u ∧ u ≠ [])
    ∧ (∀ a ∈ collectArticles fetch queries, a.url = none ∨ a.url = some [] →
        a ∉ search_news fetch queries) := by
  constructor
  · intro a ha
    obtain ⟨u, hu, hne, -⟩ := dedupByUrl_truthy _ [] a ha
    exact ⟨u, hu, hne⟩
  · intro a _ hfalsy hmem
    obtain ⟨u, hu, hne, -⟩ := dedupByUrl_truthy _ [] a hmem
    rcases hfalsy with h | h
    · rw [h] at hu
      cases hu
    · rw [h] at hu
      cases hu
      exact hne rfl

/-- Witness for C10: the unique url-less article fetched by the single query
is absent from the result. -/
theorem search_news_drops_urlless_witness :
    tagQuery "q".data artNoUrl ∉ search_news fetchW10 ["q".data] :=
  (search_news_drops_urlless fetchW10 ["q".data]).2 (tagQuery "q".data artNoUrl)
    (by decide) (Or.inl rfl)

/-- C8: on an empty article list synthesize_news returns the fixed
no-articles sentinel, and its result does not depend on the language-model
collaborator, which is never invoked. -/
theorem synthesize_empty_no_model (llm llm' : LChar → LChar → Except LChar LChar)
    (q : LChar) (n : Nat) :
    synthesize_news llm [] q n = noArticlesMsg
    ∧ synthesize_news llm [] q n = synthesize_news llm' [] q n := by
  constructor <;> simp [synthesize_news]

theorem isPre_self_append (l t : LChar) : isPre l (l ++ t) = true := by
  induction l with
  | nil => simp [isPre]
  | cons a as ih => simp [isPre, ih]

theorem isPre_https_of_http (X : LChar) :
    isPre "https://".data ("http://".data ++ X) = false := rfl

theorem protoAt_http (X : LChar) : protoAt ("http://".data ++ X) = some 7 := rfl

theorem protoAt_https (X : LChar) : protoAt ("https://".data ++ X) = some 8 := rfl

theorem tryMatch_blocked (prev : Option Char) (s : LChar)
    (h : prev = some '(' ∨ prev = some '[') : tryMatch prev s = none := by
  simp [tryMatch, h]

theorem tryMatch_none_of_proto (prev : Option Char) (s : LChar)
    (h : protoAt s = none) : tryMatch prev s = none := by
  by_cases hb : prev = some '(' ∨ prev = some '['
  · simp [tryMatch, hb]
  · simp [tryMatch, hb, h]

theorem hasSub_cons_false (pat : LChar) (c : Char) (rest : LChar)
    (h : hasSub pat (c :: rest) = false) :
    isPre pat (c :: rest) = false ∧ hasSub pat rest = false := by
  simpa [hasSub] using h

theorem protoAt_none_of_no (s : LChar) (h7 : isPre "http://".data s = false)
    (h8 : isPre "https://".data s = false) : protoAt s = none := by
  simp [protoAt, h7, h8]

theorem urlSubGo_no_http (articles : List Article) (fuel : Nat)
    (prev : Option Char) (s : LChar) (h7 : hasSub "http://".data s = false)
    (h8 : hasSub "https://".data s = false) :
    urlSubGo articles fuel prev s = s := by
  induction s generalizing fuel prev with
  | nil => cases fuel <;> simp [urlSubGo]
  | cons c rest ih =>
    cases fuel with
    | zero => rfl
    | succ f =>
      obtain ⟨hp7, hr7⟩ := hasSub_cons_false _ _ _ h7
      obtain ⟨hp8, hr8⟩ := hasSub_cons_false _ _ _ h8
      have hpn : protoAt (c :: rest) = none := protoAt_none_of_no _ hp7 hp8
      have ht : tryMatch prev (c :: rest) = none := tryMatch_none_of_proto prev _ hpn
      simp only [urlSubGo, ht]
      rw [ih f (some c) hr7 hr8]

theorem pickKRev_pos (l : LChar) (next : Option Char) (k : Nat)
    (h : pickKRev l next = some k) : 1 ≤ k := by
  induction l generalizing next with
  | nil => simp [pickKRev] at h
  | cons b bs ih =>
    cases ha : aheadOk next with
    | true =>
      simp [pickKRev, ha] at h
      omega
    | false =>
      simp only [pickKRev, ha, Bool.false_eq_true, if_false] at h
      exact ih (some b) h

theorem protoAt_nil : protoAt ([] : LChar) = none := rfl

theorem protoAt_some (s : LChar) (plen : Nat) (h : protoAt s = some plen) :
    1 ≤ plen ∧ s ≠ [] := by
  constructor
  · cases h8 : isPre "https://".data s with
    | true => simp [protoAt, h8] at h; omega
    | false =>
      cases h7 : isPre "http://".data s with
      | true => simp [protoAt, h8, h7] at h; omega
      | false => simp [protoAt, h8, h7] at h
  · intro hs
    subst hs
    rw [protoAt_nil] at h
    cases h

theorem tryMatch_eq_some (prev : Option Char) (s : LChar) (plen k : Nat)
    (hb : ¬(prev = some '(' ∨ prev = some '['))
    (hp : protoAt s = some plen)
    (hk : pickK ((s.drop plen).takeWhile classChar)
      ((s.drop plen).drop ((s.drop plen).takeWhile classChar).length).head? = some k) :
    tryMatch prev s = some (s.take (plen + k), s.drop (plen + k)) := by
  simp only [tryMatch, if_neg hb, hp, hk]

theorem tryMatch_some_length (prev : Option Char) (s u rem : LChar)
    (h : tryMatch prev s = some (u, rem)) : rem.length < s.length := by
  by_cases hb : prev = some '(' ∨ prev = some '['
  · rw [tryMatch_blocked prev s hb] at h
    cases h
  · rcases hp : protoAt s with - | plen
    · rw [tryMatch_none_of_proto prev s hp] at h
      cases h
    · obtain ⟨hplen, hs⟩ := protoAt_some s plen hp
      rcases hk : pickK ((s.drop plen).takeWhile classChar)
          ((s.drop plen).drop ((s.drop plen).takeWhile classChar).length).head? with
        - | k
      · have hnone : tryMatch prev s = none := by
          simp only [tryMatch, if_neg hb, hp, hk]
        rw [hnone] at h
        cases h
      · rw [tryMatch_eq_some prev s plen k hb hp hk] at h
        have hkpos : 1 ≤ k := pickKRev_pos _ _ _ hk
        simp only [Option.some.injEq, Prod.mk.injEq] at h
        obtain ⟨-, hrem⟩ := h
        subst hrem
        have hslen : 1 ≤ s.length := by
          cases s with
          | nil => exact absurd rfl hs
          | cons a t => simp
        rw [List.length_drop]
        omega

theorem urlSubGo_fuel (articles : List Article) (f₁ f₂ : Nat)
    (prev : Option Char) (s : LChar) (h₁ : s.length ≤ f₁) (h₂ : s.length ≤ f₂) :
    urlSubGo articles f₁ prev s = urlSubGo articles f₂ prev s := by
  induction f₁ generalizing f₂ prev s with
  | zero =>
    have hnil : s = [] := List.length_eq_zero.mp (by omega)
    subst hnil
    cases f₂ <;> simp [urlSubGo]
  | succ f ih =>
    cases s with
    | nil => cases f₂ <;> simp [urlSubGo]
    | cons c rest =>
      cases f₂ with
      | zero => simp at h₂
      | succ f₂' =>
        have hr₁ : rest.length ≤ f := by simp at h₁; omega
        have hr₂ : rest.length ≤ f₂' := by simp at h₂; omega
        simp only [urlSubGo]
        cases hm : tryMatch prev (c :: rest) with
        | none =>
          simp only [hm]
          rw [ih f₂' (some c) rest hr₁ hr₂]
        | some p =>
          obtain ⟨u, rem⟩ := p
          have hlen := tryMatch_some_length prev (c :: rest) u rem hm
          have hm₁ : rem.length ≤ f := by simp at hlen; omega
          have hm₂ : rem.length ≤ f₂' := by simp at hlen; omega
          simp only [hm]
          rw [ih f₂' (some (u.getLastD c)) rem hm₁ hm₂]

theorem lastPrev_cons (c : Char) (pre : LChar) (prev : Option Char) :
    lastPrev (c :: pre) prev = lastPrev pre (some c) := rfl

theorem lastPrev_concat (l : LChar) (c : Char) :
    ∀ prev, lastPrev (l ++ [c]) prev = some c := by
  induction l with
  | nil => intro prev; rfl
  | cons a as ih => intro prev; exact ih (some a)

theorem urlSubGo_skip_front (articles : List Article) (pre : LChar) :
    ∀ (t : LChar) (prev : Option Char) (fuel : Nat), pre.length ≤ fuel →
    (∀ i, i < pre.length → protoAt ((pre ++ t).drop i) = none) →
    urlSubGo articles fuel prev (pre ++ t) =
      pre ++ urlSubGo articles (fuel - pre.length) (lastPrev pre prev) t := by
  induction pre with
  | nil => intro t prev fuel _ _; simp [lastPrev]
  | cons c pre' ih =>
    intro t prev fuel hfuel hnm
    cases fuel with
    | zero => simp at hfuel
    | succ f =>
      have h0 : protoAt (c :: (pre' ++ t)) = none := by
        have := hnm 0 (by simp)
        simpa using this
      have ht : tryMatch prev (c :: (pre' ++ t)) = none :=
        tryMatch_none_of_proto prev _ h0
      have hf' : pre'.length ≤ f := by simp at hfuel; omega
      have hnm' : ∀ i, i < pre'.length → protoAt ((pre' ++ t).drop i) = none := by
        intro i hi
        have := hnm (i + 1) (by simp; omega)
        simpa using this
      simp only [List.cons_append, urlSubGo, ht]
      rw [ih t (some c) f hf' hnm', lastPrev_cons]
      simp

theorem pickK_full (body : LChar) (next : Option Char) (hb : body ≠ [])
    (hr : aheadOk next = true) : pickK body next = some body.length := by
  unfold pickK
  cases hrev : body.reverse with
  | nil =>
    rw [List.reverse_eq_nil_iff] at hrev
    exact absurd hrev hb
  | cons b bs =>
    have hlen : body.length = bs.length + 1 := by
      have h := congrArg List.length hrev
      simpa using h
    rw [hlen]
    simp [pickKRev, hr]

theorem tryMatch_url (prev : Option Char) (proto body rest : LChar)
    (hprev : ¬(prev = some '(' ∨ prev = some '['))
    (hp : proto = "http://".data ∨ proto = "https://".data)
    (hb : body ≠ []) (hcl : ∀ c ∈ body, classChar c = true)
    (hr : aheadOk rest.head? = true)
    (hrc : ∀ c, rest.head? = some c → classChar c = false) :
    tryMatch prev (proto ++ (body ++ rest)) = some (proto ++ body, rest) := by
  have htw : (body ++ rest).takeWhile classChar = body := by
    rw [takeWhile_append_all body rest hcl, takeWhile_eq_nil_of_head rest hrc,
      List.append_nil]
  have hdw : (body ++ rest).drop body.length = rest := List.drop_left _ _
  rcases hp with rfl | rfl
  · have hproto : protoAt ("http://".data ++ (body ++ rest)) = some 7 := protoAt_http _
    have hd : ("http://".data ++ (body ++ rest)).drop 7 = body ++ rest :=
      List.drop_left "http://".data (body ++ rest)
    have hpick : pickK ((("http://".data ++ (body ++ rest)).drop 7).takeWhile classChar)
        ((("http://".data ++ (body ++ rest)).drop 7).drop
          ((("http://".data ++ (body ++ rest)).drop 7).takeWhile classChar).length).head?
        = some body.length := by
      rw [hd, htw, hdw]
      exact pickK_full body rest.head? hb hr
    rw [tryMatch_eq_some prev _ 7 body.length hprev hproto hpick]
    have htake : ("http://".data ++ (body ++ rest)).take (7 + body.length) =
        "http://".data ++ body := by
      rw [← List.append_assoc,
        show 7 + body.length = ("http://".data ++ body).length by simp; omega,
        List.take_left]
    have hdrop2 : ("http://".data ++ (body ++ rest)).drop (7 + body.length) = rest := by
      rw [← List.append_assoc,
        show 7 + body.length = ("http://".data ++ body).length by simp; omega,
        List.drop_left]
    rw [htake, hdrop2]
  · have hproto : protoAt ("https://".data ++ (body ++ rest)) = some 8 := protoAt_https _
    have hd : ("https://".data ++ (body ++ rest)).drop 8 = body ++ rest :=
      List.drop_left "https://".data (body ++ rest)
    have hpick : pickK ((("https://".data ++ (body ++ rest)).drop 8).takeWhile classChar)
        ((("https://".data ++ (body ++ rest)).drop 8).drop
          ((("https://".data ++ (body ++ rest)).drop 8).takeWhile classChar).length).head?
        = some body.length := by
      rw [hd, htw, hdw]
      exact pickK_full body rest.head? hb hr
    rw [tryMatch_eq_some prev _ 8 body.length hprev hproto hpick]
    have htake : ("https://".data ++ (body ++ rest)).take (8 + body.length) =
        "https://".data ++ body := by
      rw [← List.append_assoc,
        show 8 + body.length = ("https://".data ++ body).length by simp; omega,
        List.take_left]
    have hdrop2 : ("https://".data ++ (body ++ rest)).drop (8 + body.length) = rest := by
      rw [← List.append_assoc,
        show 8 + body.length = ("https://".data ++ body).length by simp; omega,
        List.drop_left]
    rw [htake, hdrop2]

theorem urlSubGo_match (articles : List Article) (fuel : Nat) (prev : Option Char)
    (proto body rest : LChar)
    (hprev : ¬(prev = some '(' ∨ prev = some '['))
    (hp : proto = "http://".data ∨ proto = "https://".data)
    (hb : body ≠ []) (hcl : ∀ c ∈ body, classChar c = true)
    (hr : aheadOk rest.head? = true)
    (hrc : ∀ c, rest.head? = some c → classChar c = false)
    (hfuel : (proto ++ (body ++ rest)).length ≤ fuel) :
    urlSubGo articles fuel prev (proto ++ (body ++ rest)) =
      replace_url articles (proto ++ body) ++
        urlSubGo articles rest.length (some ((proto ++ body).getLastD 'h')) rest := by
  have hm : tryMatch prev (proto ++ (body ++ rest)) = some (proto ++ body, rest) :=
    tryMatch_url prev proto body rest hprev hp hb hcl hr hrc
  rcases hp with rfl | rfl
  · cases fuel with
    | zero => simp at hfuel
    | succ f =>
      have hrl : rest.length ≤ f := by simp at hfuel; omega
      have hs : "http://".data ++ (body ++ rest) =
          'h' :: ("ttp://".data ++ (body ++ rest)) := rfl
      rw [hs] at hm ⊢
      simp only [urlSubGo, hm]
      rw [urlSubGo_fuel articles f rest.length _ rest hrl (le_refl _)]
  · cases fuel with
    | zero => simp at hfuel
    | succ f =>
      have hrl : rest.length ≤ f := by simp at hfuel; omega
      have hs : "https://".data ++ (body ++ rest) =
          'h' :: ("ttps://".data ++ (body ++ rest)) := rfl
      rw [hs] at hm ⊢
      simp only [urlSubGo, hm]
      rw [urlSubGo_fuel articles f rest.length _ rest hrl (le_refl _)]

theorem lastPrev_append (l₁ l₂ : LChar) :
    ∀ p, lastPrev (l₁ ++ l₂) p = lastPrev l₂ (lastPrev l₁ p) := by
  induction l₁ with
  | nil => intro p; rfl
  | cons c cs ih => intro p; exact ih (some c)

/-- C7 counterexample: on the text consisting of the article's own bare URL
followed by a closing parenthesis, the regex backtracks one character, so the
matched url is "http://x.co" — which matches no article — and the output is
"[Read More](http://x.co)m)" instead of the claimed title-labelled link
around the full URL. -/
theorem format_urls_paren_cex :
    format_urls_as_links "http://x.com)".data [artX] =
      "[Read More](http://x.co)m)".data
    ∧ format_urls_as_links "http://x.com)".data [artX] ≠
      "[T](http://x.com))".data := by
  constructor
  · decide
  · decide

/-- C7 (amended): format_urls_as_links rewrites bare http(s) URLs subject to
the regex's real boundary behavior.  A text with no http(s) occurrence is
returned unchanged.  A maximal URL token — a protocol followed by a
non-empty run of non-whitespace, non-')' characters — that is preceded by a
character other than '(' and '[', and followed by end of text or a
character that ends the run and passes the lookahead (whitespace in
particular), is replaced by a markdown link: the label is the title of the
first input article whose url equals the token (truncated to 50 characters,
defaulting to 'Read More' for a missing title), or 'Read More' when no
article matches.  A URL directly preceded by '(' — as in an existing
markdown link — is left unchanged, the lookbehind blocking the match.  (A
bare URL immediately followed by ')' or ']' is not handled as the original
claim states; see the counterexample.) -/
theorem format_urls_amended (articles : List Article) :
    (∀ s : LChar, hasSub "http://".data s = false →
      hasSub "https://".data s = false → format_urls_as_links s articles = s)
    ∧ (∀ url a, articles.find? (fun x => decide (x.url = some url)) = some a →
      replace_url articles url =
        "[".data ++ (a.title.getD "Read More".data).take 50 ++ "](".data ++
          url ++ ")".data)
    ∧ (∀ url, articles.find? (fun x => decide (x.url = some url)) = none →
      replace_url articles url = "[Read More](".data ++ url ++ ")".data)
    ∧ (∀ pre proto body rest : LChar,
      (∀ i, i < pre.length →
        protoAt ((pre ++ (proto ++ (body ++ rest))).drop i) = none) →
      ¬(lastPrev pre none = some '(' ∨ lastPrev pre none = some '[') →
      (proto = "http://".data ∨ proto = "https://".data) →
      body ≠ [] → (∀ c ∈ body, classChar c = true) →
      aheadOk rest.head? = true →
      (∀ c, rest.head? = some c → classChar c = false) →
      hasSub "http://".data rest = false → hasSub "https://".data rest = false →
      format_urls_as_links (pre ++ (proto ++ (body ++ rest))) articles =
        pre ++ (replace_url articles (proto ++ body) ++ rest))
    ∧ (∀ label urest after : LChar,
      (∀ i, i < ("[".data ++ label ++ "](".data).length →
        protoAt ((("[".data ++ label ++ "](".data) ++
          ('h' :: (urest ++ (")".data ++ after)))).drop i) = none) →
      (∀ i, i < (urest ++ ")".data).length →
        protoAt (((urest ++ ")".data) ++ after).drop i) = none) →
      hasSub "http://".data after = false → hasSub "https://".data after = false →
      format_urls_as_links (("[".data ++ label ++ "](".data) ++
          ('h' :: (urest ++ (")".data ++ after)))) articles =
        ("[".data ++ label ++ "](".data) ++ ('h' :: (urest ++ (")".data ++ after)))) := by
  refine ⟨?_, ?_, ?_, ?_, ?_⟩
  · intro s h7 h8
    exact urlSubGo_no_http articles s.length none s h7 h8
  · intro url a hfind
    simp only [replace_url, hfind]
  · intro url hfind
    simp only [replace_url, hfind]
  · intro pre proto body rest hnm hlp hp hb hcl hr hrc h7r h8r
    unfold format_urls_as_links
    rw [urlSubGo_skip_front articles pre (proto ++ (body ++ rest)) none
      (pre ++ (proto ++ (body ++ rest))).length
      (by rw [List.length_append]; omega) hnm]
    have hfl : (pre ++ (proto ++ (body ++ rest))).length - pre.length =
        (proto ++ (body ++ rest)).length := by
      rw [List.length_append]; omega
    rw [hfl]
    rw [urlSubGo_match articles (proto ++ (body ++ rest)).length
      (lastPrev pre none) proto body rest hlp hp hb hcl hr hrc (le_refl _)]
    rw [urlSubGo_no_http articles rest.length
      (some ((proto ++ body).getLastD 'h')) rest h7r h8r]
  · intro label urest after hm₁ hm₂ h7a h8a
    unfold format_urls_as_links
    rw [urlSubGo_skip_front articles ("[".data ++ label ++ "](".data)
      ('h' :: (urest ++ (")".data ++ after))) none
      ((("[".data ++ label ++ "](".data) ++
        ('h' :: (urest ++ (")".data ++ after)))).length)
      (by simp only [List.length_append, List.length_cons]; omega) hm₁]
    have hlp : lastPrev ("[".data ++ label ++ "](".data) none = some '(' := by
      rw [lastPrev_append, lastPrev_append]
      rfl
    rw [hlp]
    have hfl : ((("[".data ++ label ++ "](".data) ++
        ('h' :: (urest ++ (")".data ++ after)))).length -
        ("[".data ++ label ++ "](".data).length) =
        ('h' :: (urest ++ (")".data ++ after))).length := by
      simp only [List.length_append, List.length_cons]
      omega
    rw [hfl, List.length_cons]
    have hblocked : tryMatch (some '(') ('h' :: (urest ++ (")".data ++ after))) = none :=
      tryMatch_blocked _ _ (Or.inl rfl)
    simp only [urlSubGo, hblocked]
    rw [show urest ++ (")".data ++ after) = (urest ++ ")".data) ++ after from
      (List.append_assoc _ _ _).symm]
    rw [urlSubGo_skip_front articles (urest ++ ")".data) after (some 'h')
      ((urest ++ ")".data) ++ after).length
      (by simp only [List.length_append, List.length_cons]; omega) hm₂]
    have hlp₂ : lastPrev (urest ++ ")".data) (some 'h') = some ')' := by
      rw [lastPrev_append]
      rfl
    rw [hlp₂]
    have hfl₂ : ((urest ++ ")".data) ++ after).length -
        (urest ++ ")".data).length = after.length := by
      simp only [List.length_append, List.length_cons]
      omega
    rw [hfl₂]
    rw [urlSubGo_no_http articles after.length (some ')') after h7a h8a]

/-- Witness for the C7 amendment at concrete inputs: a text without URLs is
unchanged; a bare URL token delimited by a space is replaced, and with the
matching article it renders as a title-labelled link; a markdown-wrapped URL
is left untouched. -/
theorem format_urls_amended_witness :
    format_urls_as_links "no links here".data [artX] = "no links here".data
    ∧ format_urls_as_links
        ("see ".data ++ ("http://".data ++ ("x.com".data ++ " end".data))) [artX] =
        "see ".data ++ (replace_url [artX] ("http://".data ++ "x.com".data) ++ " end".data)
    ∧ replace_url [artX] "http://x.com".data = "[T](http://x.com)".data
    ∧ format_urls_as_links (("[".data ++ "T".data ++ "](".data) ++
        ('h' :: ("ttp://x.com".data ++ (")".data ++ ([] : LChar))))) [artX] =
        ("[".data ++ "T".data ++ "](".data) ++
        ('h' :: ("ttp://x.com".data ++ (")".data ++ ([] : LChar)))) := by
  refine ⟨?_, ?_, ?_, ?_⟩
  · exact (format_urls_amended [artX]).1 "no links here".data (by decide) (by decide)
  · exact (format_urls_amended [artX]).2.2.2.1 "see ".data "http://".data
      "x.com".data " end".data (by decide) (by decide) (Or.inl rfl) (by decide)
      (by decide) (by decide)
      (by intro c hc; simp at hc; subst hc; decide) (by decide) (by decide)
  · have hfind : [artX].find? (fun x => decide (x.url = some "http://x.com".data)) =
        some artX := by decide
    rw [(format_urls_amended [artX]).2.1 "http://x.com".data artX hfind]
    decide
  · exact (format_urls_amended [artX]).2.2.2.2 "T".data "ttp://x.com".data []
      (by decide) (by decide) (by decide) (by decide)
